import Mathlib

/-!
Verification development for the genetic-algorithm search engine of
`textattack/search_methods/genetic_algorithm.py` (class `GeneticAlgorithm`).

The Python code is shallowly embedded: the stateful parts (the oracle call
counter, the shared `_search_over` flag, the NumPy random draws) become
explicit state threaded through the functions, and the external
collaborators (goal function, transformation, constraint checker, and the
abstract subclass hooks `_crossover_operation`, `_modify_population_member`,
`_initialize_population`) become fields of an `Env` record over which the
theorems quantify.  Randomness is modelled by an explicit stream of rational
draws in `[0,1)` (`Env.urand`); `np.random.choice` with a probability vector
is embedded as inverse-CDF selection (`cumChoice`).  The parent-index draws
of `_perform_search` (lines 232-233) are abstracted as arbitrary index
streams `Env.p1`/`Env.p2` (reduced mod the population size, as
`np.random.choice(pop_size, ...)` always yields indices in range); the
selection-probability computation itself (lines 228-230) is embedded
separately as `GA.selectProbs` over the reals.
-/

namespace GA

/-- An `AttackedText` together with the parts of its `attack_attrs`
side-table that `GeneticAlgorithm` reads and writes: `modified_indices`,
`newly_modified_indices` and the optional `last_transformation` provenance
tag (modelled as an opaque numeric token). -/
structure AText where
  text : String
  modifiedIndices : Finset ℕ
  newlyModifiedIndices : Finset ℕ
  lastTransf : Option ℕ
  deriving DecidableEq

/-- A `GoalFunctionResult`: the attacked text it was computed for, its
score, and whether its `goal_status` is `SUCCEEDED`. -/
structure GFResult where
  attacked_text : AText
  score : ℚ
  succeeded : Bool
  deriving DecidableEq

/-- A `PopulationMember`: candidate text, its oracle result, and the
per-position replacement budget vector `num_replacements_per_word`. -/
structure PopulationMember where
  attacked_text : AText
  result : GFResult
  num_replacements_per_word : List ℕ
  deriving DecidableEq

def dfltText : AText := ⟨"", ∅, ∅, none⟩

def dfltRes : GFResult := ⟨dfltText, 0, false⟩

def dfltMember : PopulationMember := ⟨dfltText, dfltRes, []⟩

/-- Kinds of external-collaborator invocations, recorded in the call trace. -/
inductive CKind where
  | oracle
  | transform
  | crossOp
  | constraint
  deriving DecidableEq

/-- One collaborator invocation: its kind and the value of the shared
`_search_over` flag at the moment the call was issued. -/
structure CEvent where
  kind : CKind
  flagBefore : Bool
  deriving DecidableEq

/-- The mutable search state threaded through `_perform_search`: the number
of oracle batch calls issued so far, counters of `_crossover_operation` and
constraint-checker invocations, the position in the random stream, the
shared `_search_over` flag, and the trace of collaborator calls (newest
first). -/
structure PState where
  nCalls : ℕ
  nCross : ℕ
  nCons : ℕ
  randPos : ℕ
  searchOver : Bool
  trace : List CEvent
  deriving DecidableEq

def st0 : PState := ⟨0, 0, 0, 0, false, []⟩

/-- The engine's environment: configuration, external adapters, abstract
subclass hooks, and the random streams. The `k : ℕ` argument of `oracle`,
`oracleOver` and `crossOp` is the oracle call counter (resp. a nonce) so
that successive calls may differ, as they do at runtime. -/
structure Env where
  oracle : ℕ → AText → GFResult
  oracleOver : ℕ → Bool
  transforms : AText → AText → ℕ → List AText
  checkC : AText → AText → AText → Bool
  crossOp : ℕ → PopulationMember → PopulationMember → AText × List ℕ
  budgetUpdate : List ℕ → ℕ → List ℕ
  initPop : GFResult → ℕ → List PopulationMember
  initOver : Bool
  urand : ℕ → ℚ
  p1 : ℕ → ℕ → ℕ
  p2 : ℕ → ℕ → ℕ
  popSize : ℕ
  maxIters : ℕ
  temp : ℚ
  giveUp : Bool
  post : Bool
  maxRetries : ℕ

/-- Record a collaborator invocation in the trace, bumping the dedicated
counters for `_crossover_operation` and constraint-checker calls. -/
def recordEv (k : CKind) (st : PState) : PState :=
  { st with
    trace := ⟨k, st.searchOver⟩ :: st.trace
    nCross := st.nCross + (if k = CKind.crossOp then 1 else 0)
    nCons := st.nCons + (if k = CKind.constraint then 1 else 0) }

/-- One `get_goal_results` batch call: record the event, bump the call
counter, and store the `search_over` flag the adapter returned. -/
def stepOracle (env : Env) (st : PState) : PState :=
  { recordEv CKind.oracle st with
    nCalls := st.nCalls + 1
    searchOver := env.oracleOver st.nCalls }

/-- Python truthiness of the optional `index` argument of `_perturb`:
`if index:` is false both for `None` and for `0`. -/
def pyTruthy : Option ℕ → Bool
  | none => false
  | some i => i != 0

/-- Inverse-CDF selection: given a probability vector and a draw `u`,
return the index selected by `np.random.choice(_, p=probs)`. An entry of
probability `0` is never selected for `0 ≤ u < Σ probs`. -/
def cumChoice : List ℚ → ℚ → ℕ
  | [], _ => 0
  | p :: ps, u => if u < p then 0 else cumChoice ps (u - p) + 1

/-- Maximum of a list of rationals (`torch.Tensor.max()`); junk value `0`
on the empty list, which the code guards against. -/
def maxD : List ℚ → ℚ
  | [] => 0
  | [x] => x
  | x :: y :: xs => max x (maxD (y :: xs))

/-- Index of the first maximal element (`torch.Tensor.argmax()`). -/
def argmaxIdx : List ℚ → ℕ
  | [] => 0
  | x :: xs =>
    let k := argmaxIdx xs
    if x < xs.getD k x then k + 1 else 0

/-- Modelled from the spec: the abstract hook `_modify_population_member`
(absent from `src/`, declared `@abstractmethod` at lines 46-51) must,
per its docstring and §6 of the spec (`apply_mutation_result`), return a
new copy of `pop_member` with the given `new_text` and `new_result` and a
`num_replacements_per_word` vector "altered appropriately" for `word_idx`;
the alteration rule itself stays abstract as `Env.budgetUpdate`. -/
def modifyMember (env : Env) (pm : PopulationMember) (newText : AText)
    (newResult : GFResult) (wordIdx : ℕ) : PopulationMember :=
  ⟨newText, newResult, env.budgetUpdate pm.num_replacements_per_word wordIdx⟩

/-- Position selection in `_perturb` (lines 71-77): if `index` is truthy
use it, else draw from the distribution proportional to the current budget
vector. Returns the chosen index and the state (the stream position
advances only when a draw actually happens). -/
def chooseIdx (env : Env) (index : Option ℕ) (budgets : List ℕ)
    (st : PState) : ℕ × PState :=
  if pyTruthy index then (index.getD 0, st)
  else
    let wSelectProbs :=
      budgets.map (fun b : ℕ => (b : ℚ) / (budgets.sum : ℚ))
    (cumChoice wSelectProbs (env.urand st.randPos),
      { st with randPos := st.randPos + 1 })

/-- The retry loop of `_perturb` (lines 69-109). `budgets` is the local
`np.copy` of the member's budget vector; `fuel` is the remaining iteration
count (the loop runs `while iterations < non_zero_indices`). Returns the
resulting member, the local budget copy, and the state. -/
def perturbLoop (env : Env) (origText : AText) (index : Option ℕ)
    (pm : PopulationMember) :
    List ℕ → PState → ℕ → PopulationMember × List ℕ × PState
  | budgets, st, 0 => (pm, budgets, st)
  | budgets, st, fuel + 1 =>
    let c := chooseIdx env index budgets st
    let idx := c.1
    let st1 := recordEv CKind.transform c.2
    let transformedTexts := env.transforms pm.attacked_text origText idx
    if transformedTexts.isEmpty then
      perturbLoop env origText index pm budgets st1 fuel
    else
      let newResults := transformedTexts.map (env.oracle st1.nCalls)
      let st2 := stepOracle env st1
      if st2.searchOver then (pm, budgets, st2)
      else
        let diffScores := newResults.map (fun r => r.score - pm.result.score)
        if diffScores ≠ [] ∧ 0 < maxD diffScores then
          let k := argmaxIdx diffScores
          (modifyMember env pm (transformedTexts.getD k dfltText)
            (newResults.getD k dfltRes) idx, budgets, st2)
        else
          perturbLoop env origText index pm (budgets.set idx 0) st2 fuel

/-- `_perturb` (lines 53-109): no-op when every per-position budget is
zero, else run the retry loop for `np.count_nonzero(budgets)` iterations.
The local budget copy is discarded on return (line 65: the zeroing happens
on `np.copy(pop_member.num_replacements_per_word)` only). -/
def perturb (env : Env) (pm : PopulationMember) (originalResult : GFResult)
    (index : Option ℕ) (st : PState) : PopulationMember × PState :=
  let budgets := pm.num_replacements_per_word
  let nonZeroIndices := budgets.countP (fun b => b != 0)
  if nonZeroIndices = 0 then (pm, st)
  else
    let out := perturbLoop env originalResult.attacked_text index pm budgets st
      nonZeroIndices
    (out.1, out.2.2)

/-- One attempt of the crossover retry loop, lines 142-158: invoke the
abstract `_crossover_operation`, recompute the child's `modified_indices`
attribution from the parents', and propagate the `last_transformation`
provenance tag (parent 1 preferred, else parent 2, else whatever the raw
recombination carried). -/
def crossChild (env : Env) (pm1 pm2 : PopulationMember) (nonce : ℕ) :
    AText × List ℕ :=
  let raw := env.crossOp nonce pm1 pm2
  let newTextRaw := raw.1
  let x1 := pm1.attacked_text
  let x2 := pm2.attacked_text
  let replacedIndices := newTextRaw.newlyModifiedIndices
  let modified := (x1.modifiedIndices \ replacedIndices) ∪
    (x2.modifiedIndices ∩ replacedIndices)
  let lastT := match x1.lastTransf with
    | some t => some t
    | none => match x2.lastTransf with
      | some t => some t
      | none => newTextRaw.lastTransf
  ({ newTextRaw with modifiedIndices := modified, lastTransf := lastT },
    raw.2)

/-- The crossover retry loop (lines 139-180): `while num_tries <
max_crossover_retries + 1`. `passed` threads the Python
`passed_constraints` variable (initially `false`); the result carries the
last computed child (or `none` if the loop never ran), the final
`passed_constraints`, and the state. -/
def crossoverLoop (env : Env) (pm1 pm2 : PopulationMember)
    (originalText : AText) :
    ℕ → Bool → PState → Option (AText × List ℕ) × Bool × PState
  | 0, passed, st => (none, passed, st)
  | fuel + 1, passed, st =>
    let cb := crossChild env pm1 pm2 st.randPos
    let newText := cb.1
    let st1 := recordEv CKind.crossOp { st with randPos := st.randPos + 1 }
    let x1 := pm1.attacked_text
    let x2 := pm2.attacked_text
    if env.post = false ∨ newText.text = x1.text ∨ newText.text = x2.text
    then (some cb, passed, st1)
    else
      match newText.lastTransf with
      | some _ =>
        let previousText := if x1.lastTransf.isSome then x1 else x2
        let passedNow := env.checkC newText previousText originalText
        let st2 := recordEv CKind.constraint st1
        if passedNow then (some cb, true, st2)
        else crossoverLoop env pm1 pm2 originalText fuel false st2
      | none => (some cb, true, st1)

/-- `_crossover` (lines 124-193): run the retry loop; on
`post_crossover_check` with no passing child fall back to a
uniformly-random parent (line 185, `np.random.uniform() < 0.5`) with no
oracle call; otherwise score the last child once and wrap it as a new
`PopulationMember`. The `none` fallback arm is unreachable from `crossover`
since the loop fuel is `max_crossover_retries + 1 ≥ 1`. -/
def crossover (env : Env) (pm1 pm2 : PopulationMember)
    (originalText : AText) (st : PState) : PopulationMember × PState :=
  let out := crossoverLoop env pm1 pm2 originalText (env.maxRetries + 1)
    false st
  let passed := out.2.1
  let st1 := out.2.2
  if env.post = true ∧ passed = false then
    let u := env.urand st1.randPos
    let st2 := { st1 with randPos := st1.randPos + 1 }
    (if u < 1/2 then pm1 else pm2, st2)
  else
    match out.1 with
    | some cb =>
      let res := env.oracle st1.nCalls cb.1
      (⟨cb.1, res, cb.2⟩, stepOracle env st1)
    | none => (pm1, st1)

/-- Descending-by-score comparison used by `sorted(population,
key=lambda x: x.result.score, reverse=True)`. -/
def scoreGe (a b : PopulationMember) : Prop :=
  b.result.score ≤ a.result.score

instance : DecidableRel scoreGe := fun a b =>
  inferInstanceAs (Decidable (b.result.score ≤ a.result.score))

instance : IsTotal PopulationMember scoreGe :=
  ⟨fun a b => le_total b.result.score a.result.score⟩

instance : IsTrans PopulationMember scoreGe :=
  ⟨fun _ _ _ h1 h2 => le_trans h2 h1⟩

/-- Line 214: sort the population by score, descending (stable). -/
def sortDesc (l : List PopulationMember) : List PopulationMember :=
  l.insertionSort scoreGe

/-- How one generation of `_perform_search` ended. -/
inductive ExitKind where
  | maxIters
  | terminal
  | stall
  deriving DecidableEq

/-- Result of one pass of the generation loop body. -/
inductive StepRes where
  | exit (k : ExitKind) (pop : List PopulationMember) (st : PState)
  | next (pop : List PopulationMember) (curScore : ℚ) (st : PState)
  deriving DecidableEq

/-- The child-construction loop (lines 235-251): for each of the
`pop_size - 1` slots draw two parents, cross them over, bail out on
`_search_over` before perturbing, perturb, append, and bail out again on
`_search_over`. `g` is the generation index, `j` the slot index, `acc` the
children built so far (newest first). -/
def childrenLoop (env : Env) (initialResult : GFResult)
    (spop : List PopulationMember) (g : ℕ) :
    ℕ → ℕ → List PopulationMember → PState →
      List PopulationMember × PState
  | 0, _, acc, st => (acc.reverse, st)
  | fuel + 1, j, acc, st =>
    let pm1 := spop.getD (env.p1 g j % spop.length) dfltMember
    let pm2 := spop.getD (env.p2 g j % spop.length) dfltMember
    let c1 := crossover env pm1 pm2 initialResult.attacked_text st
    if c1.2.searchOver then (acc.reverse, c1.2)
    else
      let c2 := perturb env c1.1 initialResult none c1.2
      let acc2 := c2.1 :: acc
      if c2.2.searchOver then (acc2.reverse, c2.2)
      else childrenLoop env initialResult spop g fuel (j + 1) acc2 c2.2

/-- One iteration of the generation loop of `_perform_search` (lines
214-253): sort descending; exit on the `_search_over` flag or a succeeded
top member; update the best-score tracker and exit on stall when
`give_up_if_no_improvement`; otherwise build `pop_size - 1` children and
prepend the unchanged elite. -/
def generationStep (env : Env) (initialResult : GFResult) (popSize : ℕ)
    (g : ℕ) (pop : List PopulationMember) (currentScore : ℚ)
    (st : PState) : StepRes :=
  let spop := sortDesc pop
  let top := spop.headD dfltMember
  if st.searchOver = true ∨ top.result.succeeded = true then
    StepRes.exit ExitKind.terminal spop st
  else if ¬ currentScore < top.result.score ∧ env.giveUp = true then
    StepRes.exit ExitKind.stall spop st
  else
    let currentScore2 :=
      if currentScore < top.result.score then top.result.score
      else currentScore
    let cs := childrenLoop env initialResult spop g (popSize - 1) 0 [] st
    StepRes.next (top :: cs.1) currentScore2 cs.2

/-- The generation loop of `_perform_search` (`for i in
range(self.max_iters)`), returning the final population, how the loop
ended, and the final state. -/
def searchLoop (env : Env) (initialResult : GFResult) (popSize : ℕ) :
    ℕ → ℕ → List PopulationMember → ℚ → PState →
      List PopulationMember × ExitKind × PState
  | 0, _, pop, _, st => (pop, ExitKind.maxIters, st)
  | fuel + 1, g, pop, currentScore, st =>
    match generationStep env initialResult popSize g pop currentScore st with
    | StepRes.exit k spop st1 => (spop, k, st1)
    | StepRes.next newPop cs2 st1 =>
      searchLoop env initialResult popSize fuel (g + 1) newPop cs2 st1

/-- `_perform_search` (lines 207-255), also exposing the final population,
exit kind and state: reset `_search_over` (the initializer may set it,
modelled by `Env.initOver`), build the initial population, fix `pop_size`,
and run the generation loop starting from the initial score. -/
def performSearchFull (env : Env) (initialResult : GFResult) :
    List PopulationMember × ExitKind × PState :=
  let population := env.initPop initialResult env.popSize
  let st1 := { st0 with searchOver := env.initOver }
  searchLoop env initialResult population.length env.maxIters 0 population
    initialResult.score st1

/-- `_perform_search` proper: line 255, `return population[0].result`. -/
def performSearch (env : Env) (initialResult : GFResult) : GFResult :=
  ((performSearchFull env initialResult).1.headD dfltMember).result

/-- The parent-selection probabilities of lines 228-230: for a population
with score vector `s`, `logits = ((-pop_scores) / self.temp).exp()` and
`select_probs = logits / logits.sum()`. -/
noncomputable def selectProbs (n : ℕ) (s : Fin n → ℝ) (temp : ℝ)
    (i : Fin n) : ℝ :=
  Real.exp (-s i / temp) / ∑ j, Real.exp (-s j / temp)

/-- A successful commit of `_perturb`: the returned member is
`_modify_population_member` applied at some sampled position `idx` to the
`k`-th transformation candidate, whose score strictly improves on the
member's and is maximal among the batch scored in that step. -/
def CommitStep (env : Env) (origText : AText)
    (pm out : PopulationMember) : Prop :=
  ∃ idx n k,
    k < (env.transforms pm.attacked_text origText idx).length ∧
    out = modifyMember env pm
      ((env.transforms pm.attacked_text origText idx).getD k dfltText)
      (((env.transforms pm.attacked_text origText idx).map
        (env.oracle n)).getD k dfltRes) idx ∧
    pm.result.score <
      (((env.transforms pm.attacked_text origText idx).map
        (env.oracle n)).getD k dfltRes).score ∧
    ∀ r ∈ (env.transforms pm.attacked_text origText idx).map
        (env.oracle n),
      r.score ≤ (((env.transforms pm.attacked_text origText idx).map
        (env.oracle n)).getD k dfltRes).score

/-- Every call with the flag already raised would contradict the budget
cancellation discipline; `TraceOK` says no recorded call saw a raised
flag. -/
def TraceOK (l : List CEvent) : Prop := ∀ e ∈ l, e.flagBefore = false

lemma headD_mem {α : Type} {l : List α} {d : α} (h : l ≠ []) :
    l.headD d ∈ l := by
  cases l with
  | nil => exact absurd rfl h
  | cons a t => exact List.mem_cons_self a t

lemma sorted_head_max {l : List PopulationMember}
    (h : l.Sorted scoreGe) :
    ∀ m ∈ l, m.result.score ≤ (l.headD dfltMember).result.score := by
  cases l with
  | nil => intro m hm; exact absurd hm (List.not_mem_nil m)
  | cons a t =>
    intro m hm
    rcases List.mem_cons.mp hm with h1 | h1
    · exact h1 ▸ le_rfl
    · exact List.rel_of_sorted_cons h m h1

lemma sortDesc_sorted (l : List PopulationMember) :
    (sortDesc l).Sorted scoreGe :=
  List.sorted_insertionSort scoreGe l

lemma mem_sortDesc {a : PopulationMember} {l : List PopulationMember} :
    a ∈ sortDesc l ↔ a ∈ l :=
  (List.perm_insertionSort scoreGe l).mem_iff

lemma sortDesc_ne_nil {l : List PopulationMember} (h : l ≠ []) :
    sortDesc l ≠ [] := by
  intro hc
  exact h (List.Perm.eq_nil ((List.perm_insertionSort scoreGe l).symm.trans
    (hc ▸ List.Perm.refl _)))

lemma sortDesc_head_mem {l : List PopulationMember} (h : l ≠ []) :
    (sortDesc l).headD dfltMember ∈ l :=
  mem_sortDesc.mp (headD_mem (sortDesc_ne_nil h))

lemma sortDesc_head_max (l : List PopulationMember) :
    ∀ m ∈ l, m.result.score ≤
      ((sortDesc l).headD dfltMember).result.score := by
  intro m hm
  exact sorted_head_max (sortDesc_sorted l) m (mem_sortDesc.mpr hm)

lemma le_maxD {l : List ℚ} : ∀ x ∈ l, x ≤ maxD l := by
  induction l with
  | nil => intro x hx; exact absurd hx (List.not_mem_nil x)
  | cons a t ih =>
    intro x hx
    cases t with
    | nil =>
      rcases List.mem_cons.mp hx with h | h
      · simp [maxD, h]
      · exact absurd h (List.not_mem_nil x)
    | cons b t2 =>
      rcases List.mem_cons.mp hx with h | h
      · simp [maxD, h]
      · exact le_trans (ih x h) (by simp [maxD])

lemma argmax_spec : ∀ (l : List ℚ), l ≠ [] →
    argmaxIdx l < l.length ∧ l.getD (argmaxIdx l) 0 = maxD l := by
  intro l
  induction l with
  | nil => intro h; exact absurd rfl h
  | cons a t ih =>
    intro _
    cases t with
    | nil => simp [argmaxIdx, maxD]
    | cons b t2 =>
      obtain ⟨hk, hv⟩ := ih (by simp)
      have he : (b :: t2).getD (argmaxIdx (b :: t2)) a = maxD (b :: t2) := by
        rw [List.getD_eq_getElem _ _ hk]
        rw [List.getD_eq_getElem _ _ hk] at hv
        exact hv
      have hun : argmaxIdx (a :: b :: t2) =
          if a < (b :: t2).getD (argmaxIdx (b :: t2)) a
          then argmaxIdx (b :: t2) + 1 else 0 := rfl
      have hmax : maxD (a :: b :: t2) = max a (maxD (b :: t2)) := rfl
      rw [hun]
      by_cases hc : a < (b :: t2).getD (argmaxIdx (b :: t2)) a
      · rw [if_pos hc]
        refine ⟨by simpa using Nat.succ_lt_succ hk, ?_⟩
        rw [List.getD_cons_succ, hv, hmax, max_eq_right]
        exact le_of_lt (he ▸ hc)
      · rw [if_neg hc]
        refine ⟨by simp, ?_⟩
        rw [List.getD_cons_zero, hmax, max_eq_left]
        rw [← he]
        exact not_lt.mp hc

lemma cumChoice_pos : ∀ (l : List ℚ) (u : ℚ), 0 ≤ u → u < l.sum →
    0 < l.getD (cumChoice l u) 0 := by
  intro l
  induction l with
  | nil =>
    intro u h0 h1
    simp only [List.sum_nil] at h1
    exact absurd h1 (not_lt.mpr h0)
  | cons p ps ih =>
    intro u h0 h1
    simp only [cumChoice]
    split
    · rename_i hlt
      simpa using lt_of_le_of_lt h0 hlt
    · rename_i hge
      push_neg at hge
      rw [List.getD_cons_succ]
      refine ih (u - p) (by linarith) ?_
      simp only [List.sum_cons] at h1
      linarith

lemma sum_map_div (l : List ℕ) (c : ℚ) :
    (l.map fun b : ℕ => (b : ℚ) / c).sum = ((l.sum : ℕ) : ℚ) / c := by
  induction l with
  | nil => simp
  | cons a t ih =>
    simp only [List.map_cons, List.sum_cons, ih]
    push_cast
    ring

lemma perturbLoop_cases (env : Env) (origText : AText) (index : Option ℕ)
    (pm : PopulationMember) :
    ∀ (fuel : ℕ) (budgets : List ℕ) (st : PState),
      (perturbLoop env origText index pm budgets st fuel).1 = pm ∨
      CommitStep env origText pm
        (perturbLoop env origText index pm budgets st fuel).1 := by
  intro fuel
  induction fuel with
  | zero => intro budgets st; left; rfl
  | succ n ih =>
    intro budgets st
    simp only [perturbLoop]
    split
    · exact ih _ _
    · rename_i hne
      split
      · left; rfl
      · split
        · rename_i hcommit
          right
          set idx := (chooseIdx env index budgets st).1 with hidx
          set ts := env.transforms pm.attacked_text origText idx with hts
          set nc := (recordEv CKind.transform
            (chooseIdx env index budgets st).2).nCalls with hnc
          set rs := ts.map (env.oracle nc) with hrs
          set ds := rs.map (fun r => r.score - pm.result.score) with hds
          obtain ⟨hd, hmx⟩ := hcommit
          obtain ⟨hklt, hkval⟩ := argmax_spec ds hd
          set k := argmaxIdx ds with hk
          have hkr : k < rs.length := by
            simpa [hds] using hklt
          have hkt : k < ts.length := by
            simpa [hrs] using hkr
          have hdk : ds.getD k 0 = (rs.getD k dfltRes).score -
              pm.result.score := by
            rw [List.getD_eq_getElem _ _ hklt, List.getD_eq_getElem _ _ hkr]
            simp [hds]
          refine ⟨idx, nc, k, hkt, rfl, ?_, ?_⟩
          · have := hkval ▸ hdk
            have h2 : 0 < maxD ds := hmx
            rw [← hrs]
            linarith [this ▸ h2]
          · intro r hr
            have hmem : r.score - pm.result.score ∈ ds := by
              rw [hds]
              exact List.mem_map_of_mem _ hr
            have := le_maxD _ hmem
            rw [← hkval] at this
            rw [← hrs]
            rw [hdk] at this
            linarith
        · exact ih _ _

lemma chooseIdx_trace (env : Env) (index : Option ℕ) (budgets : List ℕ)
    (st : PState) :
    (chooseIdx env index budgets st).2.trace = st.trace ∧
    (chooseIdx env index budgets st).2.searchOver = st.searchOver ∧
    (chooseIdx env index budgets st).2.nCalls = st.nCalls := by
  unfold chooseIdx
  split <;> simp

lemma traceOK_record {k : CKind} {st : PState}
    (hf : st.searchOver = false) (h : TraceOK st.trace) :
    TraceOK (recordEv k st).trace := by
  intro e he
  rcases List.mem_cons.mp he with h1 | h1
  · rw [h1]; exact hf
  · exact h e h1

lemma perturbLoop_traceOK (env : Env) (origText : AText)
    (index : Option ℕ) (pm : PopulationMember) :
    ∀ (fuel : ℕ) (budgets : List ℕ) (st : PState),
      st.searchOver = false → TraceOK st.trace →
      TraceOK (perturbLoop env origText index pm budgets st fuel).2.2.trace := by
  intro fuel
  induction fuel with
  | zero => intro budgets st _ h; exact h
  | succ n ih =>
    intro budgets st hf h
    obtain ⟨hct, hcs, hcc⟩ := chooseIdx_trace env index budgets st
    have hf1 : (recordEv CKind.transform
        (chooseIdx env index budgets st).2).searchOver = false := by
      simp [recordEv, hcs, hf]
    have h1 : TraceOK (recordEv CKind.transform
        (chooseIdx env index budgets st).2).trace := by
      refine traceOK_record ?_ ?_
      · rw [hcs]; exact hf
      · rw [hct]; exact h
    simp only [perturbLoop]
    split
    · exact ih _ _ hf1 h1
    · have h2 : TraceOK (stepOracle env (recordEv CKind.transform
          (chooseIdx env index budgets st).2)).trace := by
        intro e he
        rcases List.mem_cons.mp he with he1 | he1
        · rw [he1]; exact hf1
        · exact h1 e he1
      split
      · exact h2
      · rename_i hs
        split
        · exact h2
        · refine ih _ _ ?_ h2
          simpa using hs

lemma perturb_cases (env : Env) (pm : PopulationMember)
    (originalResult : GFResult) (index : Option ℕ) (st : PState) :
    (perturb env pm originalResult index st).1 = pm ∨
    CommitStep env originalResult.attacked_text pm
      (perturb env pm originalResult index st).1 := by
  simp only [perturb]
  split
  · left; rfl
  · exact perturbLoop_cases env originalResult.attacked_text index pm _ _ _

lemma perturb_traceOK (env : Env) (pm : PopulationMember)
    (originalResult : GFResult) (index : Option ℕ) (st : PState)
    (hf : st.searchOver = false) (h : TraceOK st.trace) :
    TraceOK (perturb env pm originalResult index st).2.trace := by
  simp only [perturb]
  split
  · exact h
  · exact perturbLoop_traceOK env originalResult.attacked_text index pm
      _ _ _ hf h

lemma crossoverLoop_state (env : Env) (pm1 pm2 : PopulationMember)
    (originalText : AText) :
    ∀ (fuel : ℕ) (passed : Bool) (st : PState),
      (crossoverLoop env pm1 pm2 originalText fuel passed st).2.2.nCalls =
        st.nCalls ∧
      (crossoverLoop env pm1 pm2 originalText fuel passed st).2.2.searchOver
        = st.searchOver ∧
      (crossoverLoop env pm1 pm2 originalText fuel passed st).2.2.nCross ≤
        st.nCross + fuel := by
  intro fuel
  induction fuel with
  | zero => intro passed st; exact ⟨rfl, rfl, Nat.le_add_right _ _⟩
  | succ n ih =>
    intro passed st
    obtain ⟨hr1, hr2, hr3⟩ := ih false (recordEv CKind.constraint
      (recordEv CKind.crossOp { st with randPos := st.randPos + 1 }))
    have hr4 : (crossoverLoop env pm1 pm2 originalText n false
        (recordEv CKind.constraint (recordEv CKind.crossOp
          { st with randPos := st.randPos + 1 }))).2.2.nCross ≤
        st.nCross + (n + 1) := by
      refine le_trans hr3 ?_
      simp [recordEv] <;> omega
    simp only [crossoverLoop]
    split
    · exact ⟨rfl, rfl, by simp [recordEv] <;> omega⟩
    · split
      · split
        · split
          · exact ⟨rfl, rfl, by simp [recordEv] <;> omega⟩
          · exact ⟨hr1, hr2, hr4⟩
        · split
          · exact ⟨rfl, rfl, by simp [recordEv] <;> omega⟩
          · exact ⟨hr1, hr2, hr4⟩
      · exact ⟨rfl, rfl, by simp [recordEv] <;> omega⟩

lemma crossoverLoop_traceOK (env : Env) (pm1 pm2 : PopulationMember)
    (originalText : AText) :
    ∀ (fuel : ℕ) (passed : Bool) (st : PState),
      st.searchOver = false → TraceOK st.trace →
      TraceOK (crossoverLoop env pm1 pm2 originalText fuel passed
        st).2.2.trace := by
  intro fuel
  induction fuel with
  | zero => intro passed st _ h; exact h
  | succ n ih =>
    intro passed st hf h
    have h1 : TraceOK (recordEv CKind.crossOp
        { st with randPos := st.randPos + 1 }).trace := traceOK_record hf h
    have hf1 : (recordEv CKind.crossOp
        { st with randPos := st.randPos + 1 }).searchOver = false := hf
    have h2 : TraceOK (recordEv CKind.constraint (recordEv CKind.crossOp
        { st with randPos := st.randPos + 1 })).trace :=
      traceOK_record hf1 h1
    have hf2 : (recordEv CKind.constraint (recordEv CKind.crossOp
        { st with randPos := st.randPos + 1 })).searchOver = false := hf
    simp only [crossoverLoop]
    repeat' split
    any_goals exact h1
    any_goals exact h2
    all_goals exact ih false _ hf2 h2

lemma crossoverLoop_allFail (env : Env) (pm1 pm2 : PopulationMember)
    (originalText : AText) (htag : pm1.attacked_text.lastTransf.isSome)
    (hchk : ∀ a b c, env.checkC a b c = false) :
    ∀ (fuel : ℕ) (st : PState),
      (crossoverLoop env pm1 pm2 originalText fuel false st).2.1 = false := by
  obtain ⟨t, ht⟩ := Option.isSome_iff_exists.mp htag
  intro fuel
  induction fuel with
  | zero => intro st; rfl
  | succ n ih =>
    intro st
    have hlt : (crossChild env pm1 pm2 st.randPos).1.lastTransf = some t := by
      simp [crossChild, ht]
    simp only [crossoverLoop]
    split
    · rfl
    · split
      · split
        · rename_i hcc
          rw [hchk] at hcc
          exact absurd hcc (by simp)
        · exact ih _
      · rename_i ht2
        rw [hlt] at ht2
        exact absurd ht2 (by simp)

lemma crossover_traceOK (env : Env) (pm1 pm2 : PopulationMember)
    (originalText : AText) (st : PState) (hf : st.searchOver = false)
    (h : TraceOK st.trace) :
    TraceOK (crossover env pm1 pm2 originalText st).2.trace := by
  have hl := crossoverLoop_traceOK env pm1 pm2 originalText
    (env.maxRetries + 1) false st hf h
  have hs := (crossoverLoop_state env pm1 pm2 originalText
    (env.maxRetries + 1) false st).2.1
  simp only [crossover]
  split
  · exact hl
  · split
    · intro e he
      rcases List.mem_cons.mp he with he1 | he1
      · rw [he1]
        simp only []
        rw [hs, hf]
      · exact hl e he1
    · exact hl

lemma childrenLoop_traceOK (env : Env) (initialResult : GFResult)
    (spop : List PopulationMember) (g : ℕ) :
    ∀ (fuel j : ℕ) (acc : List PopulationMember) (st : PState),
      st.searchOver = false → TraceOK st.trace →
      TraceOK (childrenLoop env initialResult spop g fuel j acc
        st).2.trace := by
  intro fuel
  induction fuel with
  | zero => intro j acc st _ h; exact h
  | succ n ih =>
    intro j acc st hf h
    simp only [childrenLoop]
    set q1 := spop.getD (env.p1 g j % spop.length) dfltMember with hq1
    set q2 := spop.getD (env.p2 g j % spop.length) dfltMember with hq2
    have hc := crossover_traceOK env q1 q2 initialResult.attacked_text st
      hf h
    split
    · exact hc
    · rename_i hso
      have hf1 : (crossover env q1 q2
          initialResult.attacked_text st).2.searchOver = false := by
        simpa using hso
      have hp := perturb_traceOK env
        (crossover env q1 q2 initialResult.attacked_text st).1 initialResult
        none (crossover env q1 q2 initialResult.attacked_text st).2 hf1 hc
      split
      · exact hp
      · rename_i hso2
        exact ih _ _ _ (by simpa using hso2) hp

lemma searchLoop_traceOK (env : Env) (initialResult : GFResult)
    (popSize : ℕ) :
    ∀ (fuel g : ℕ) (pop : List PopulationMember) (cs : ℚ) (st : PState),
      TraceOK st.trace →
      TraceOK (searchLoop env initialResult popSize fuel g pop cs
        st).2.2.trace := by
  intro fuel
  induction fuel with
  | zero => intro g pop cs st h; exact h
  | succ n ih =>
    intro g pop cs st h
    simp only [searchLoop]
    cases hgen : generationStep env initialResult popSize g pop cs st with
    | exit k spop st1 =>
      have hst : st1 = st := by
        simp only [generationStep] at hgen
        split at hgen
        · rw [StepRes.exit.injEq] at hgen
          exact hgen.2.2.symm
        · split at hgen
          · rw [StepRes.exit.injEq] at hgen
            exact hgen.2.2.symm
          · exact StepRes.noConfusion hgen
      show TraceOK st1.trace
      rw [hst]
      exact h
    | next newPop cs2 st1 =>
      have hst : TraceOK st1.trace := by
        simp only [generationStep] at hgen
        split at hgen
        · exact StepRes.noConfusion hgen
        · rename_i hterm
          split at hgen
          · exact StepRes.noConfusion hgen
          · rw [StepRes.next.injEq] at hgen
            have hf : st.searchOver = false := by
              rcases not_or.mp hterm with ⟨h1, _⟩
              simpa using h1
            rw [← hgen.2.2]
            exact childrenLoop_traceOK env initialResult _ _ _ _ _ _ hf h
      exact ih (g + 1) newPop cs2 st1 hst

lemma searchLoop_exit_sorted (env : Env) (initialResult : GFResult)
    (popSize : ℕ) :
    ∀ (fuel g : ℕ) (pop : List PopulationMember) (cs : ℚ) (st : PState),
      (searchLoop env initialResult popSize fuel g pop cs st).2.1 ≠
        ExitKind.maxIters →
      List.Sorted scoreGe
        (searchLoop env initialResult popSize fuel g pop cs st).1 := by
  intro fuel
  induction fuel with
  | zero => intro g pop cs st hk; exact absurd rfl hk
  | succ n ih =>
    intro g pop cs st hk
    simp only [searchLoop] at hk ⊢
    cases hgen : generationStep env initialResult popSize g pop cs st with
    | exit k spop st1 =>
      have hsp : spop = sortDesc pop := by
        simp only [generationStep] at hgen
        split at hgen
        · rw [StepRes.exit.injEq] at hgen
          exact hgen.2.1.symm
        · split at hgen
          · rw [StepRes.exit.injEq] at hgen
            exact hgen.2.1.symm
          · exact StepRes.noConfusion hgen
      show List.Sorted scoreGe spop
      rw [hsp]
      exact sortDesc_sorted pop
    | next newPop cs2 st1 =>
      rw [hgen] at hk
      exact ih (g + 1) newPop cs2 st1 hk

/-! Concrete environments and members used by witnesses and
counterexamples. -/

def txOrig : AText := ⟨"orig", ∅, ∅, none⟩

def resOrig : GFResult := ⟨txOrig, 0, false⟩

def memOrig : PopulationMember := ⟨txOrig, resOrig, [0]⟩

def txChild : AText := ⟨"child", ∅, ∅, none⟩

def resChild : GFResult := ⟨txChild, 5, false⟩

/-- A small deterministic environment: population of two copies of the
unperturbed member, a single generation, crossover acceptance without
post-check, an oracle that scores every candidate 5, and a transformation
adapter that returns no candidates. -/
def envBase : Env where
  oracle := fun _ _ => resChild
  oracleOver := fun _ => false
  transforms := fun _ _ _ => []
  checkC := fun _ _ _ => true
  crossOp := fun _ _ _ => (txChild, [0])
  budgetUpdate := fun b _ => b
  initPop := fun _ _ => [memOrig, memOrig]
  initOver := false
  urand := fun _ => 0
  p1 := fun _ _ => 0
  p2 := fun _ _ => 0
  popSize := 2
  maxIters := 1
  temp := 1
  giveUp := false
  post := false
  maxRetries := 0

/-- `envBase` with the oracle budget already exhausted by the initializer,
so the generation loop exits terminally at its first check. -/
def envStall : Env := { envBase with initOver := true }

/-- Parent members carrying a transformation provenance tag. -/
def memTag : PopulationMember :=
  ⟨⟨"a", ∅, ∅, some 7⟩, ⟨⟨"a", ∅, ∅, some 7⟩, 1, false⟩, [1]⟩

def memTag2 : PopulationMember :=
  ⟨⟨"b", ∅, ∅, some 8⟩, ⟨⟨"b", ∅, ∅, some 8⟩, 2, false⟩, [1]⟩

/-- Parent members carrying no provenance tag. -/
def memPlain : PopulationMember :=
  ⟨⟨"a", ∅, ∅, none⟩, ⟨⟨"a", ∅, ∅, none⟩, 1, false⟩, [1]⟩

def memPlain2 : PopulationMember :=
  ⟨⟨"b", ∅, ∅, none⟩, ⟨⟨"b", ∅, ∅, none⟩, 2, false⟩, [1]⟩

/-- Post-check enabled, constraint checker rejecting everything, and a
recombination whose child text differs from both parents. -/
def envC5 : Env :=
  { envBase with
    post := true
    checkC := fun _ _ _ => false
    crossOp := fun _ _ _ => (⟨"c", ∅, ∅, none⟩, [3]) }

/-- Post-check enabled and a recombination whose child text equals parent
1's text. -/
def envIdent : Env :=
  { envBase with
    post := true
    crossOp := fun _ _ _ => (⟨"a", ∅, ∅, none⟩, [3]) }

/-- Environment whose uniform stream always yields 3/5, whose
transformation adapter proposes one candidate, and whose oracle scores
every candidate 0. -/
def envPerturb : Env :=
  { envBase with
    transforms := fun _ _ _ => [⟨"y", ∅, ∅, none⟩]
    oracle := fun _ t => ⟨t, 0, false⟩
    urand := fun _ => 3/5 }

/-- A member with score 1 and budget 2 at its single position. -/
def memB2 : PopulationMember :=
  ⟨⟨"x", ∅, ∅, none⟩, ⟨⟨"x", ∅, ∅, none⟩, 1, false⟩, [2]⟩

/-- Claim C2, counterexample: with two members, one generation and an
oracle scoring the crossover child 5, `_perform_search` exhausts its
generation count and returns the stale elite's result (score 0) even
though the final population contains a member scoring 5 — so the returned
result is not that of the maximal-scoring member at the time of exit. -/
theorem C2_counterexample :
    performSearch envBase resOrig = resOrig ∧
    (performSearchFull envBase resOrig).2.1 = ExitKind.maxIters ∧
    ∃ m ∈ (performSearchFull envBase resOrig).1,
      (performSearch envBase resOrig).score < m.result.score := by
  refine ⟨by decide, by decide, ⟨txChild, resChild, [0]⟩, by decide, by decide⟩

/-- Claim C2 (amended): for every exit of `_perform_search` through an
in-loop break (search-over flag, success of the top member, or stall), the
returned result is that of a maximal-scoring member of the population at
exit; only the max-generations exit may return the stale elite of the last
sorted generation. -/
theorem C2_amended_best_on_break (env : Env) (initialResult : GFResult)
    (hk : (performSearchFull env initialResult).2.1 ≠ ExitKind.maxIters) :
    performSearch env initialResult =
      ((performSearchFull env initialResult).1.headD dfltMember).result ∧
    ∀ m ∈ (performSearchFull env initialResult).1,
      m.result.score ≤ (performSearch env initialResult).score := by
  refine ⟨rfl, ?_⟩
  intro m hm
  have hs := searchLoop_exit_sorted env initialResult
    (env.initPop initialResult env.popSize).length env.maxIters 0
    (env.initPop initialResult env.popSize) initialResult.score
    { st0 with searchOver := env.initOver } hk
  exact sorted_head_max hs m hm

/-- Witness for the amended C2: a terminal (search-over) exit where the
returned result is the maximal score of the exit population. -/
theorem C2_witness :
    performSearch envStall resOrig =
      ((performSearchFull envStall resOrig).1.headD dfltMember).result ∧
    ∀ m ∈ (performSearchFull envStall resOrig).1,
      m.result.score ≤ (performSearch envStall resOrig).score :=
  C2_amended_best_on_break envStall resOrig (by decide)

/-- Claim C3: `_perturb` is strictly non-worsening — it either returns the
member unchanged or commits a single best-scoring candidate whose score
strictly exceeds the member's; and if every candidate at every position
scores no better than the member, the returned member is (textually)
identical to the input. -/
theorem C3_perturb_nonworsening (env : Env) (pm : PopulationMember)
    (originalResult : GFResult) (index : Option ℕ) (st : PState) :
    ((perturb env pm originalResult index st).1 = pm ∨
      (pm.result.score <
        (perturb env pm originalResult index st).1.result.score ∧
       CommitStep env originalResult.attacked_text pm
         (perturb env pm originalResult index st).1)) ∧
    ((∀ (i n : ℕ) (r : GFResult),
        r ∈ (env.transforms pm.attacked_text
          originalResult.attacked_text i).map (env.oracle n) →
        r.score ≤ pm.result.score) →
      (perturb env pm originalResult index st).1 = pm ∧
      (perturb env pm originalResult index st).1.attacked_text.text =
        pm.attacked_text.text) := by
  rcases perturb_cases env pm originalResult index st with h | h
  · exact ⟨Or.inl h, fun _ => ⟨h, by rw [h]⟩⟩
  · constructor
    · right
      obtain ⟨idx, n, k, hk, heq, himp, hmax⟩ := h
      refine ⟨?_, ⟨idx, n, k, hk, heq, himp, hmax⟩⟩
      rw [heq]
      exact himp
    · intro hno
      obtain ⟨idx, n, k, hk, heq, himp, hmax⟩ := h
      exfalso
      have hmem : ((env.transforms pm.attacked_text
          originalResult.attacked_text idx).map (env.oracle n)).getD k
          dfltRes ∈ (env.transforms pm.attacked_text
          originalResult.attacked_text idx).map (env.oracle n) := by
        rw [List.getD_eq_getElem _ _ (by simpa using hk)]
        exact List.getElem_mem _
      have := hno idx n _ hmem
      linarith

/-- Witness for C3: in an environment whose transformation adapter never
proposes candidates, `_perturb` is an identity on the member. -/
theorem C3_witness :
    (perturb envBase memOrig resOrig none st0).1 = memOrig ∧
    (perturb envBase memOrig resOrig none st0).1.attacked_text.text =
      memOrig.attacked_text.text :=
  (C3_perturb_nonworsening envBase memOrig resOrig none st0).2
    (fun i n r hr => by simp [envBase] at hr)

/-- Claim C4: in an entire `_perform_search` run, no oracle-adapter or
transformation-adapter call is ever issued while the `_search_over` flag
is raised — every loop checks the flag after each oracle call and
short-circuits. -/
theorem C4_no_call_after_search_over (env : Env)
    (initialResult : GFResult) :
    ∀ e ∈ (performSearchFull env initialResult).2.2.trace,
      e.kind = CKind.oracle ∨ e.kind = CKind.transform →
      e.flagBefore = false := by
  intro e he _
  refine searchLoop_traceOK env initialResult _ _ _ _ _ _ ?_ e he
  intro e2 he2
  exact absurd he2 (List.not_mem_nil e2)

/-- Witness for C4: a run of `envBase` records an oracle call, issued with
the flag down. -/
theorem C4_witness :
    (⟨CKind.oracle, false⟩ : CEvent) ∈
      (performSearchFull envBase resOrig).2.2.trace ∧
    (⟨CKind.oracle, false⟩ : CEvent).flagBefore = false :=
  ⟨by decide, C4_no_call_after_search_over envBase resOrig
    ⟨CKind.oracle, false⟩ (by decide) (Or.inl rfl)⟩

/-- Environment whose uniform stream always yields 3/5. -/
def envDraw : Env := { envBase with urand := fun _ => 3/5 }

/-- Claim C7 (code bug): `_perturb`'s `if index:` treats a supplied index
0 as unspecified, so with `index = 0` and budgets `[1, 1]` the sampled
position is the random draw (position 1, for a uniform draw of 3/5), not
position 0 — while a nonzero supplied index (5) is honoured and the
index-free call makes the same random draw. -/
theorem C7_index_zero_bug :
    (chooseIdx envDraw (some 0) [1, 1] st0).1 = 1 ∧
    (chooseIdx envDraw (some 5) [1, 1] st0).1 = 5 ∧
    (chooseIdx envDraw none [1, 1] st0).1 = 1 := by
  refine ⟨?_, by decide, ?_⟩ <;>
    norm_num [chooseIdx, pyTruthy, cumChoice, envDraw, envBase, st0]

/-- Claim C9: whenever a generation constructs a successor, the successor
population is the unchanged top-scoring member of the current population
at index 0, ahead of all children. -/
theorem C9_elitism (env : Env) (initialResult : GFResult)
    (popSize g : ℕ) (pop : List PopulationMember) (currentScore : ℚ)
    (st : PState) (hne : pop ≠ [])
    (newPop : List PopulationMember) (cs2 : ℚ) (st1 : PState)
    (hstep : generationStep env initialResult popSize g pop currentScore
      st = StepRes.next newPop cs2 st1) :
    ∃ best children, newPop = best :: children ∧ best ∈ pop ∧
      ∀ m ∈ pop, m.result.score ≤ best.result.score := by
  simp only [generationStep] at hstep
  split at hstep
  · exact StepRes.noConfusion hstep
  · split at hstep
    · exact StepRes.noConfusion hstep
    · rw [StepRes.next.injEq] at hstep
      exact ⟨(sortDesc pop).headD dfltMember, _, hstep.1.symm,
        sortDesc_head_mem hne, sortDesc_head_max pop⟩

/-- Witness for C9: a singleton population steps to a successor headed by
its own (maximal) member. -/
theorem C9_witness :
    ∃ best children,
      ([memOrig] : List PopulationMember) = best :: children ∧
      best ∈ [memOrig] ∧
      ∀ m ∈ [memOrig], m.result.score ≤ best.result.score :=
  C9_elitism envBase resOrig 1 0 [memOrig] 0 st0 (by decide) [memOrig] 0
    st0 (by decide)

/-- Claim C5: the crossover retry loop invokes the recombination at most
`max_crossover_retries + 1` times; every call either scores an accepted
child exactly once or falls back to a parent with zero oracle calls; and
with post-check on, a tagged parent and an always-rejecting constraint
checker, the fallback returns the parent selected by the next uniform
draw (`< 1/2` picks parent 1) with no oracle call. -/
theorem C5_crossover_retry_and_fallback (env : Env)
    (pm1 pm2 : PopulationMember) (originalText : AText) (st : PState) :
    ((crossover env pm1 pm2 originalText st).2.nCross ≤
      st.nCross + env.maxRetries + 1) ∧
    ((crossover env pm1 pm2 originalText st).2.nCalls = st.nCalls + 1 ∨
      ((crossover env pm1 pm2 originalText st).2.nCalls = st.nCalls ∧
       ((crossover env pm1 pm2 originalText st).1 = pm1 ∨
        (crossover env pm1 pm2 originalText st).1 = pm2))) ∧
    (env.post = true → pm1.attacked_text.lastTransf.isSome →
      (∀ a b c, env.checkC a b c = false) →
      (crossover env pm1 pm2 originalText st).2.nCalls = st.nCalls ∧
      ∃ p, (crossover env pm1 pm2 originalText st).1 =
          (if env.urand p < 1/2 then pm1 else pm2) ∧
        (crossover env pm1 pm2 originalText st).2.randPos = p + 1) := by
  obtain ⟨hn, hso, hcr⟩ := crossoverLoop_state env pm1 pm2 originalText
    (env.maxRetries + 1) false st
  simp only [crossover]
  split
  · refine ⟨?_, Or.inr ⟨hn, ?_⟩, fun _ _ _ => ⟨hn,
      (crossoverLoop env pm1 pm2 originalText (env.maxRetries + 1) false
        st).2.2.randPos, rfl, rfl⟩⟩
    · exact hcr.trans (by omega)
    · split
      · exact Or.inl rfl
      · exact Or.inr rfl
  · rename_i hcond
    split
    · refine ⟨?_, Or.inl ?_, fun hpost htag hchk => absurd
        ⟨hpost, crossoverLoop_allFail env pm1 pm2 originalText htag hchk
          _ _⟩ hcond⟩
      · exact hcr.trans (by omega)
      · exact congrArg (fun x => x + 1) hn
    · exact ⟨hcr.trans (by omega), Or.inr ⟨hn, Or.inl rfl⟩,
        fun hpost htag hchk =>
        absurd ⟨hpost, crossoverLoop_allFail env pm1 pm2 originalText htag
          hchk _ _⟩ hcond⟩

/-- Witness for C5: with post-check on, tagged parents, and an
always-rejecting checker, the crossover falls back to a coin-selected
parent without any oracle call. -/
theorem C5_witness :
    (crossover envC5 memTag memTag2 txOrig st0).2.nCalls = st0.nCalls ∧
    ∃ p, (crossover envC5 memTag memTag2 txOrig st0).1 =
        (if envC5.urand p < 1/2 then memTag else memTag2) ∧
      (crossover envC5 memTag memTag2 txOrig st0).2.randPos = p + 1 :=
  (C5_crossover_retry_and_fallback envC5 memTag memTag2 txOrig st0).2.2
    rfl (by decide) (fun _ _ _ => rfl)

/-- Claim C6, counterexample: with post-check enabled and a recombined
child textually identical to parent 1, the early `break` leaves
`passed_constraints = False`, so the fallback fires: the child is NOT
scored (no oracle call) and a parent replaces it. -/
theorem C6_counterexample :
    (crossover envIdent memTag memTag2 txOrig st0).1 = memTag ∧
    (crossover envIdent memTag memTag2 txOrig st0).2.nCalls =
      st0.nCalls := by
  constructor <;>
    norm_num [crossover, crossoverLoop, crossChild, envIdent, envBase,
      memTag, memTag2, recordEv, st0, txOrig]

/-- One attempt of the retry loop breaks out immediately when post-check
is off or the child text equals a parent's text, leaving
`passed_constraints` at its incoming value. -/
lemma crossoverLoop_break_first (env : Env) (pm1 pm2 : PopulationMember)
    (originalText : AText) (fuel : ℕ) (passed : Bool) (st : PState)
    (hcond : env.post = false ∨
      (crossChild env pm1 pm2 st.randPos).1.text =
        pm1.attacked_text.text ∨
      (crossChild env pm1 pm2 st.randPos).1.text =
        pm2.attacked_text.text) :
    crossoverLoop env pm1 pm2 originalText (fuel + 1) passed st =
      (some (crossChild env pm1 pm2 st.randPos), passed,
        recordEv CKind.crossOp { st with randPos := st.randPos + 1 }) := by
  simp only [crossoverLoop]
  rw [if_pos hcond]

/-- Claim C6 (amended): with post-check disabled the first recombined
child is accepted immediately, scored exactly once and wrapped as a new
`PopulationMember`; but with post-check enabled and a child textually
identical to either parent, the loop breaks with `passed_constraints`
still false and the fallback returns a parent with no oracle call — the
child is NOT scored. -/
theorem C6_amended_accept_paths (env : Env) (pm1 pm2 : PopulationMember)
    (originalText : AText) (st : PState) :
    (env.post = false →
      (crossover env pm1 pm2 originalText st).1 =
        ⟨(crossChild env pm1 pm2 st.randPos).1,
         env.oracle st.nCalls (crossChild env pm1 pm2 st.randPos).1,
         (crossChild env pm1 pm2 st.randPos).2⟩ ∧
      (crossover env pm1 pm2 originalText st).2.nCalls = st.nCalls + 1) ∧
    (env.post = true →
      ((crossChild env pm1 pm2 st.randPos).1.text =
          pm1.attacked_text.text ∨
       (crossChild env pm1 pm2 st.randPos).1.text =
          pm2.attacked_text.text) →
      ((crossover env pm1 pm2 originalText st).1 = pm1 ∨
       (crossover env pm1 pm2 originalText st).1 = pm2) ∧
      (crossover env pm1 pm2 originalText st).2.nCalls = st.nCalls) := by
  constructor
  · intro hpost
    simp only [crossover]
    rw [crossoverLoop_break_first env pm1 pm2 originalText env.maxRetries
      false st (Or.inl hpost)]
    rw [if_neg (by simp [hpost])]
    exact ⟨rfl, rfl⟩
  · intro hpost htext
    simp only [crossover]
    rw [crossoverLoop_break_first env pm1 pm2 originalText env.maxRetries
      false st (Or.inr htext)]
    rw [if_pos ⟨hpost, rfl⟩]
    refine ⟨?_, rfl⟩
    split
    · exact Or.inl rfl
    · exact Or.inr rfl

/-- Witness for the amended C6: with post-check off, the crossover result
is the scored first child and exactly one oracle call is spent. -/
theorem C6_witness :
    (crossover envBase memOrig memOrig txOrig st0).1 =
      ⟨(crossChild envBase memOrig memOrig st0.randPos).1,
       envBase.oracle st0.nCalls
         (crossChild envBase memOrig memOrig st0.randPos).1,
       (crossChild envBase memOrig memOrig st0.randPos).2⟩ ∧
    (crossover envBase memOrig memOrig txOrig st0).2.nCalls =
      st0.nCalls + 1 :=
  (C6_amended_accept_paths envBase memOrig memOrig txOrig st0).1 rfl

/-- Claim C8, counterexample: `_perturb` zeroes a position's budget only
on its local `np.copy`. Here a failed attempt (one oracle call) zeroes
position 0 locally, the member is returned unchanged with its budget
still 2, and a subsequent `_perturb` call on the returned member samples
position 0 again — the exclusion does not persist across calls. -/
theorem C8_counterexample :
    (perturb envPerturb memB2 resOrig none st0).1 = memB2 ∧
    memB2.num_replacements_per_word = [2] ∧
    (perturb envPerturb memB2 resOrig none st0).2.nCalls = 1 ∧
    (chooseIdx envPerturb none
      (perturb envPerturb memB2 resOrig none st0).1.num_replacements_per_word
      st0).1 = 0 := by
  have h1 : (perturb envPerturb memB2 resOrig none st0).1 = memB2 ∧
      (perturb envPerturb memB2 resOrig none st0).2.nCalls = 1 := by
    constructor <;>
      norm_num [perturb, perturbLoop, chooseIdx, pyTruthy, cumChoice,
        stepOracle, recordEv, maxD, argmaxIdx, modifyMember, envPerturb,
        envBase, memB2, resOrig, txOrig, st0]
  refine ⟨h1.1, rfl, h1.2, ?_⟩
  rw [h1.1]
  norm_num [chooseIdx, pyTruthy, cumChoice, envPerturb, envBase, memB2,
    st0]

/-- Claim C8 (amended): within one `_perturb` call, the budget-weighted
draw never selects a position whose current (local) budget is zero — so a
position zeroed during the call is never sampled again in that call; but
the zeroing is confined to the local copy: the returned member is either
the input itself (budgets untouched) or the `_modify_population_member`
image of the input. -/
theorem C8_amended_zero_budget_sampling (env : Env) :
    (∀ (budgets : List ℕ) (st : PState),
      0 ≤ env.urand st.randPos → env.urand st.randPos < 1 →
      budgets.sum ≠ 0 →
      budgets.getD (chooseIdx env none budgets st).1 0 ≠ 0) ∧
    (∀ (pm : PopulationMember) (originalResult : GFResult)
        (index : Option ℕ) (st : PState),
      (perturb env pm originalResult index st).1 = pm ∨
      ∃ t r i, (perturb env pm originalResult index st).1 =
        modifyMember env pm t r i) := by
  constructor
  · intro budgets st h0 h1 hs
    have hch : (chooseIdx env none budgets st).1 =
        cumChoice (budgets.map fun b : ℕ => (b : ℚ) / (budgets.sum : ℚ))
          (env.urand st.randPos) := rfl
    have hsum : (budgets.map fun b : ℕ =>
        (b : ℚ) / (budgets.sum : ℚ)).sum = 1 := by
      rw [sum_map_div]
      exact div_self (by exact_mod_cast hs)
    have hpos := cumChoice_pos
      (budgets.map fun b : ℕ => (b : ℚ) / (budgets.sum : ℚ))
      (env.urand st.randPos) h0 (by rw [hsum]; exact h1)
    rw [hch]
    set k := cumChoice (budgets.map fun b : ℕ =>
      (b : ℚ) / (budgets.sum : ℚ)) (env.urand st.randPos) with hkdef
    by_cases hk : k < budgets.length
    · intro hzero
      have hz2 : (budgets.map fun b : ℕ =>
          (b : ℚ) / (budgets.sum : ℚ)).getD k 0 = 0 := by
        rw [List.getD_eq_getElem _ _ (by simpa using hk),
          List.getElem_map]
        rw [List.getD_eq_getElem _ _ hk] at hzero
        rw [hzero]
        simp
      rw [hz2] at hpos
      exact lt_irrefl 0 hpos
    · have hz2 : (budgets.map fun b : ℕ =>
          (b : ℚ) / (budgets.sum : ℚ)).getD k 0 = 0 :=
        List.getD_eq_default _ _ (by simpa using not_lt.mp hk)
      rw [hz2] at hpos
      exact absurd hpos (lt_irrefl 0)
  · intro pm originalResult index st
    rcases perturb_cases env pm originalResult index st with h | h
    · exact Or.inl h
    · right
      obtain ⟨idx, n, k, hk, heq, _, _⟩ := h
      exact ⟨_, _, idx, heq⟩

/-- Witness for the amended C8: with a positive budget at the only
position and a valid draw, the sampled position has nonzero budget. -/
theorem C8_witness :
    ([2] : List ℕ).getD (chooseIdx envPerturb none [2] st0).1 0 ≠ 0 :=
  (C8_amended_zero_budget_sampling envPerturb).1 [2] st0 (by norm_num
    [envPerturb, envBase, st0]) (by norm_num [envPerturb, envBase, st0])
    (by decide)

/-- Claim C10, counterexample: post-check on and neither parent tagged,
but the recombined child's text equals parent 1's text — then the child is
NOT scored and accepted: the fallback returns a parent with zero oracle
calls. -/
theorem C10_counterexample :
    (crossover envIdent memPlain memPlain2 txOrig st0).1 = memPlain ∧
    (crossover envIdent memPlain memPlain2 txOrig st0).2.nCalls =
      st0.nCalls := by
  constructor <;>
    norm_num [crossover, crossoverLoop, crossChild, envIdent, envBase,
      memPlain, memPlain2, recordEv, st0, txOrig]

/-- Claim C10 (amended): with post-check enabled, a recombined child that
carries no provenance tag AND whose text differs from both parents' texts
is treated as passing the constraints on the first attempt: the constraint
checker is never invoked, the recombination happens exactly once, and the
child is scored exactly once and wrapped as a new member. -/
theorem C10_amended_no_provenance (env : Env)
    (pm1 pm2 : PopulationMember) (originalText : AText) (st : PState)
    (hpost : env.post = true)
    (hlt : (crossChild env pm1 pm2 st.randPos).1.lastTransf = none)
    (ht1 : (crossChild env pm1 pm2 st.randPos).1.text ≠
      pm1.attacked_text.text)
    (ht2 : (crossChild env pm1 pm2 st.randPos).1.text ≠
      pm2.attacked_text.text) :
    (crossover env pm1 pm2 originalText st).1 =
      ⟨(crossChild env pm1 pm2 st.randPos).1,
       env.oracle st.nCalls (crossChild env pm1 pm2 st.randPos).1,
       (crossChild env pm1 pm2 st.randPos).2⟩ ∧
    (crossover env pm1 pm2 originalText st).2.nCalls = st.nCalls + 1 ∧
    (crossover env pm1 pm2 originalText st).2.nCons = st.nCons ∧
    (crossover env pm1 pm2 originalText st).2.nCross = st.nCross + 1 := by
  have hloop : crossoverLoop env pm1 pm2 originalText
      (env.maxRetries + 1) false st =
      (some (crossChild env pm1 pm2 st.randPos), true,
        recordEv CKind.crossOp { st with randPos := st.randPos + 1 }) := by
    simp only [crossoverLoop]
    rw [if_neg (by simp [hpost, ht1, ht2])]
    rw [hlt]
  simp only [crossover]
  rw [hloop]
  rw [if_neg (by simp)]
  refine ⟨rfl, ?_, ?_, ?_⟩ <;> simp [stepOracle, recordEv]

/-- Witness for the amended C10: post-check on, untagged parents, child
text distinct from both parents — the child is scored and accepted on the
first attempt with no constraint call. -/
theorem C10_witness :
    (crossover envC5 memPlain memPlain2 txOrig st0).1 =
      ⟨(crossChild envC5 memPlain memPlain2 st0.randPos).1,
       envC5.oracle st0.nCalls
         (crossChild envC5 memPlain memPlain2 st0.randPos).1,
       (crossChild envC5 memPlain memPlain2 st0.randPos).2⟩ ∧
    (crossover envC5 memPlain memPlain2 txOrig st0).2.nCalls =
      st0.nCalls + 1 ∧
    (crossover envC5 memPlain memPlain2 txOrig st0).2.nCons = st0.nCons ∧
    (crossover envC5 memPlain memPlain2 txOrig st0).2.nCross =
      st0.nCross + 1 :=
  C10_amended_no_provenance envC5 memPlain memPlain2 txOrig st0 rfl
    (by decide) (by decide) (by decide)

/-- The selection probability equals the inverse of the sum of
`exp((s m - s j)/t)`: divide numerator and denominator of the softmax by
the member's own logit. -/
lemma selectProbs_inv (n : ℕ) (s : Fin n → ℝ) (t : ℝ) (m : Fin n) :
    selectProbs n s t m = (∑ j, Real.exp ((s m - s j) / t))⁻¹ := by
  unfold selectProbs
  have h1 : ∀ j, Real.exp (-s j / t) =
      Real.exp (-s m / t) * Real.exp ((s m - s j) / t) := by
    intro j
    rw [← Real.exp_add]
    congr 1
    ring
  rw [Finset.sum_congr rfl (fun j _ => h1 j), ← Finset.mul_sum,
    div_mul_eq_div_div, div_self (Real.exp_ne_zero _), one_div]

/-- Claim C1, counterexample: for the two-member population with scores
`0` and `1` at temperature `1`, the code's selection probability of the
higher-scoring member (index 1) is strictly BELOW that of the
lower-scoring member (index 0): `exp((-score)/temp)` decreases in score,
so the claimed monotone-increasing property fails. -/
theorem C1_counterexample :
    ¬ (selectProbs 2 ![0, 1] 1 0 ≤ selectProbs 2 ![0, 1] 1 1) := by
  rw [not_le]
  unfold selectProbs
  have hD : (0:ℝ) <
      ∑ j : Fin 2, Real.exp (-(![0, 1] : Fin 2 → ℝ) j / 1) :=
    Finset.sum_pos (fun j _ => Real.exp_pos _) ⟨0, Finset.mem_univ _⟩
  refine (div_lt_div_right hD).mpr ?_
  rw [Real.exp_lt_exp]
  norm_num

/-- Claim C1 (amended): the parent-selection distribution computed at
lines 228-230 (`select_probs i = exp((-s i)/temp) / Σ exp((-s j)/temp)`)
is monotonically DECREASING in oracle score: for every pair of members the
higher-scoring one is sampled with probability at most that of the
lower-scoring one; as the temperature tends to `0⁺` the probability of the
unique WORST-scoring member tends to 1; as the temperature tends to `∞`
the distribution tends to uniform (`1/n`). -/
theorem C1_amended_selection (n : ℕ) (s : Fin n → ℝ) :
    (∀ (t : ℝ), 0 < t → ∀ i j : Fin n, s i ≤ s j →
      selectProbs n s t j ≤ selectProbs n s t i) ∧
    (∀ m : Fin n, (∀ j, j ≠ m → s m < s j) →
      Filter.Tendsto (fun t => selectProbs n s t m)
        (nhdsWithin 0 (Set.Ioi 0)) (nhds 1)) ∧
    (∀ i : Fin n, Filter.Tendsto (fun t => selectProbs n s t i)
      Filter.atTop (nhds (1 / (n : ℝ)))) := by
  refine ⟨?_, ?_, ?_⟩
  · intro t ht i j hij
    unfold selectProbs
    have hD : (0:ℝ) < ∑ k, Real.exp (-s k / t) :=
      Finset.sum_pos (fun k _ => Real.exp_pos _) ⟨i, Finset.mem_univ _⟩
    exact (div_le_div_right hD).mpr (Real.exp_le_exp.mpr
      ((div_le_div_right ht).mpr (neg_le_neg hij)))
  · intro m hm
    have hS : Filter.Tendsto
        (fun t => ∑ j, Real.exp ((s m - s j) / t))
        (nhdsWithin 0 (Set.Ioi 0))
        (nhds (∑ j : Fin n, if j = m then 1 else 0)) := by
      apply tendsto_finset_sum
      intro j _
      by_cases hj : j = m
      · subst hj
        simp only [sub_self, zero_div, Real.exp_zero, if_pos rfl]
        exact tendsto_const_nhds
      · rw [if_neg hj]
        have hneg : s m - s j < 0 := sub_neg.mpr (hm j hj)
        have h3 : Filter.Tendsto (fun t : ℝ => t⁻¹)
            (nhdsWithin 0 (Set.Ioi 0)) Filter.atTop :=
          tendsto_inv_zero_atTop
        have h2 : Filter.Tendsto (fun t : ℝ => (s m - s j) / t)
            (nhdsWithin 0 (Set.Ioi 0)) Filter.atBot := by
          have h4 := Filter.Tendsto.neg_const_mul_atTop hneg h3
          simpa [div_eq_mul_inv] using h4
        exact Real.tendsto_exp_atBot.comp h2
    have hsum1 : (∑ j : Fin n, if j = m then (1:ℝ) else 0) = 1 := by
      simp
    rw [hsum1] at hS
    have hinv := hS.inv₀ one_ne_zero
    rw [inv_one] at hinv
    exact Filter.Tendsto.congr
      (fun t => (selectProbs_inv n s t m).symm) hinv
  · intro i
    have hS : Filter.Tendsto
        (fun t => ∑ j, Real.exp ((s i - s j) / t)) Filter.atTop
        (nhds (∑ _j : Fin n, (1:ℝ))) := by
      apply tendsto_finset_sum
      intro j _
      have h2 : Filter.Tendsto (fun t : ℝ => (s i - s j) / t)
          Filter.atTop (nhds 0) :=
        Filter.Tendsto.div_atTop tendsto_const_nhds Filter.tendsto_id
      have h3 := (Real.continuous_exp.tendsto 0).comp h2
      rw [Real.exp_zero] at h3
      exact h3
    have hsum : (∑ _j : Fin n, (1:ℝ)) = n := by simp
    rw [hsum] at hS
    have hn0 : (n:ℝ) ≠ 0 := Nat.cast_ne_zero.mpr i.pos.ne'
    have hinv := hS.inv₀ hn0
    rw [one_div]
    exact Filter.Tendsto.congr
      (fun t => (selectProbs_inv n s t i).symm) hinv

/-- Witness for the amended C1: the antitonicity applied to the singleton
population at temperature 1. -/
theorem C1_witness :
    selectProbs 1 ![(0:ℝ)] 1 0 ≤ selectProbs 1 ![(0:ℝ)] 1 0 :=
  (C1_amended_selection 1 ![(0:ℝ)]).1 1 one_pos 0 0 le_rfl

end GA
